import Mathlib

/-!
# Verification of the d2lstat usage-statistics pipeline

A shallow embedding of `ctleweb/d2lstat/d2lstat.py`: rows of the usage and
roster CSV files are modelled as lists of string fields (the result of
splitting a line on the delimiter), Python `int()` parsing as an
`Option Int` parser, and code that can raise (`int()` on garbage,
division by zero) as `Except Unit` computations.  Field accesses `y[i]`
are modelled with `List.getD i ""`; the theorems that depend on a field
being present carry the corresponding length hypothesis.
-/

namespace D2lstat

/-- A data row: the list of string fields of one line, as produced by
splitting on the delimiter. -/
abbrev Row := List String

/-- `DELIMITER = '|'` from the source's global settings. -/
def DELIMITER : Char := '|'

/-- Column of assignments data (`ASSIGNMENTS = 13`). -/
def ASSIGNMENTS : Nat := 13

/-- Column of grade item data (`GRADE = 15`). -/
def GRADE : Nat := 15

/-- Column of graded grade item data (`GRADED = 16`). -/
def GRADED : Nat := 16

/-- Column of discussion post usage (`DISCUSSION = 18`). -/
def DISCUSSION : Nat := 18

/-- Column of the instructor's R number in the usage file (`USAGE_ROYAL = 3`). -/
def USAGE_ROYAL : Nat := 3

/-- Column of the faculty R number in the roster files (`FAC_ROYAL = 0`). -/
def FAC_ROYAL : Nat := 0

/-- Field access `y[i]`: total model of Python's indexing, returning `""`
out of range (Python raises; theorems that need the field carry a length
hypothesis instead). -/
def fld (y : Row) (i : Nat) : String := y.getD i ""

/-- Value of a nonempty all-digit character list, `none` otherwise. -/
def parseDigits (s : List Char) : Option Nat :=
  if s ≠ [] ∧ s.all Char.isDigit then
    some (s.foldl (fun n c => n * 10 + (c.toNat - 48)) 0)
  else none

/-- Strip leading and trailing whitespace characters. -/
def stripWS (s : List Char) : List Char :=
  ((s.dropWhile Char.isWhitespace).reverse.dropWhile Char.isWhitespace).reverse

/-- Python `int(s)`: optional surrounding whitespace, an optional sign and a
nonempty digit string; anything else raises `ValueError`, modelled as `none`. -/
def pyInt (s : String) : Option Int :=
  match stripWS s.toList with
  | '-' :: rest => (parseDigits rest).map (fun n => -(n : Int))
  | '+' :: rest => (parseDigits rest).map (fun n => (n : Int))
  | t => (parseDigits t).map (fun n => (n : Int))

/-- `startsWithChars pat l` is true iff `pat` is an initial segment of `l`. -/
def startsWithChars : List Char → List Char → Bool
  | [], _ => true
  | _ :: _, [] => false
  | a :: as, b :: bs => a = b && startsWithChars as bs

/-- `containsChars pat l` is true iff `pat` occurs contiguously in `l`. -/
def containsChars (pat : List Char) : List Char → Bool
  | [] => startsWithChars pat []
  | b :: bs => startsWithChars pat (b :: bs) || containsChars pat bs

/-- Python's substring test `pat in hay`. -/
def strIn (pat hay : String) : Bool := containsChars pat.toList hay.toList

/-- `filter_for_semester`: keep the rows whose field 9 contains the semester
tag as a substring (`if semester in y[9]`). -/
def filter_for_semester (files_data : List Row) (semester : String) : List Row :=
  files_data.filter (fun y => strIn semester (fld y 9))

/-- The usage test of `get_rows_with_usage`, with Python's left-to-right
short-circuit evaluation of
`int(y[13]) > 0 or int(y[15]) > 2 or int(y[16]) > 0 or int(y[18]) > 0`;
`none` when an `int()` call raises before the value of the test is decided. -/
def usageTest (y : Row) : Option Bool :=
  match pyInt (fld y ASSIGNMENTS) with
  | none => none
  | some a =>
    if 0 < a then some true else
    match pyInt (fld y GRADE) with
    | none => none
    | some g =>
      if 2 < g then some true else
      match pyInt (fld y GRADED) with
      | none => none
      | some gr =>
        if 0 < gr then some true else
        match pyInt (fld y DISCUSSION) with
        | none => none
        | some d => some (decide (0 < d))

/-- The kept/dropped decision of `get_rows_with_usage` as a total Boolean
(used to state which rows the filter keeps; agrees with the code whenever
no `int()` call raises). -/
def usageKeep (y : Row) : Bool := (usageTest y).getD false

/-- `get_rows_with_usage`: keeps the rows with relevant usage; an unhandled
`ValueError`/`IndexError` on any row aborts the whole call (there is no
try/except in this function), modelled by `Except.error`. -/
def get_rows_with_usage : List Row → Except Unit (List Row)
  | [] => Except.ok []
  | y :: rest =>
    match usageTest y with
    | none => Except.error ()
    | some b =>
      match get_rows_with_usage rest with
      | Except.error e => Except.error e
      | Except.ok final => Except.ok (if b then y :: final else final)

/-- Python `s[-5:]`: the last five characters of `s`, or all of `s` when it
is shorter than five characters. -/
def last5 (s : String) : String := String.mk (s.toList.drop (s.length - 5))

/-- The deduplication key of `remove_duplicate_crn`: the last five
characters of field 9. -/
def crnKey (y : Row) : String := last5 (fld y 9)

/-- The deduplication key of `remove_duplicate_royal`: field 3 in full. -/
def royalKey (y : Row) : String := fld y USAGE_ROYAL

/-- The shared seen-list loop of both deduplicators: walk the rows, keep a
row iff its key has not been appended to `seen` yet. -/
def dedupByAux {α β : Type} [DecidableEq β] (f : α → β) :
    List β → List α → List α
  | _, [] => []
  | seen, x :: xs =>
    if f x ∈ seen then dedupByAux f seen xs
    else x :: dedupByAux f (seen ++ [f x]) xs

/-- `remove_duplicate_crn`: drop rows repeating an earlier row's course key. -/
def remove_duplicate_crn (files_data : List Row) : List Row :=
  dedupByAux crnKey [] files_data

/-- `remove_duplicate_royal`: drop rows repeating an earlier row's
instructor R number. -/
def remove_duplicate_royal (files_data : List Row) : List Row :=
  dedupByAux royalKey [] files_data

/-- The specification form of first-occurrence deduplication: keep the head
(the first occurrence of its key) and delete every later row with the same
key before recursing. -/
def specFO {α β : Type} [DecidableEq β] (f : α → β) : List α → List α
  | [] => []
  | x :: xs => x :: specFO f (xs.filter (fun y => f y ≠ f x))
termination_by l => l.length
decreasing_by
  simp only [List.length_cons]
  exact Nat.lt_succ_of_le (List.length_filter_le _ _)

/-- The roster-classification loop at the end of `parse_files`: each
instructor-deduplicated row goes to `full` when its R number is in the
full-time roster list, else to `part` when it is in the part-time roster
list, else to `staff`. -/
def classify (full_r part_r : List String) : List Row → List Row × List Row × List Row
  | [] => ([], [], [])
  | y :: rest =>
    let out := classify full_r part_r rest
    if fld y USAGE_ROYAL ∈ full_r then (y :: out.1, out.2.1, out.2.2)
    else if fld y USAGE_ROYAL ∈ part_r then (out.1, y :: out.2.1, out.2.2)
    else (out.1, out.2.1, y :: out.2.2)

/-- Python `s.strip('"')`: remove leading and trailing quote characters
(applied to the roster R numbers in `parse_files`). -/
def stripQuotes (s : String) : String :=
  String.mk (((s.toList.dropWhile (fun c => c = '"')).reverse.dropWhile
    (fun c => c = '"')).reverse)

/-- The per-category counters of `calculate_stats` (`specifics`). -/
structure Specifics where
  assignments : Nat
  grade : Nat
  graded : Nat
  discussion : Nat
deriving DecidableEq

/-- The `specifics` loop of `calculate_stats`: for every course row of the
course-deduplicated list the four counters are parsed and each category's
count is incremented independently; an `int()` failure raises out of the
whole computation. -/
def calc_specifics : List Row → Except Unit Specifics
  | [] => Except.ok ⟨0, 0, 0, 0⟩
  | y :: rest =>
    match pyInt (fld y ASSIGNMENTS), pyInt (fld y GRADE),
        pyInt (fld y GRADED), pyInt (fld y DISCUSSION) with
    | some a, some g, some gr, some d =>
      match calc_specifics rest with
      | Except.error e => Except.error e
      | Except.ok s =>
        Except.ok ⟨(if 0 < a then 1 else 0) + s.assignments,
          (if 2 < g then 1 else 0) + s.grade,
          (if 0 < gr then 1 else 0) + s.graded,
          (if 0 < d then 1 else 0) + s.discussion⟩
    | _, _, _, _ => Except.error ()

/-- Lines 137-139 of `parse_files`: semester filter, usage filter, then
course-key deduplication, producing the `semester_no_dup_crn` list that
`calculate_stats` aggregates over. -/
def semesterNoDupCrn (usageRows : List Row) (semester : String) :
    Except Unit (List Row) :=
  match get_rows_with_usage (filter_for_semester usageRows semester) with
  | Except.error e => Except.error e
  | Except.ok two => Except.ok (remove_duplicate_crn two)

/-! ## Rounding and report generation (`generate_document`) -/

/-- Round a rational to the nearest integer with ties to even. -/
def rne (q : ℚ) : ℤ :=
  if q - ⌊q⌋ < 1/2 then ⌊q⌋
  else if (1 : ℚ)/2 < q - ⌊q⌋ then ⌊q⌋ + 1
  else if ⌊q⌋ % 2 = 0 then ⌊q⌋ else ⌊q⌋ + 1

/-- Python `round(x, 1)`, as the decimal that ends up written into the
report: CPython rounds the exact value of its float argument to the
nearest multiple of `1/10`, ties to even (correctly rounded decimal
conversion), and the resulting float prints as that decimal.  A float's
exact value is a rational, so this is total on `ℚ`; it is applied below to
the exact values of the binary64 numbers the program computes. -/
def pyRound1 (q : ℚ) : ℚ := (rne (q * 10) : ℚ) / 10

/-- `2 ^ e` over `ℚ` for an integer exponent. -/
def pow2 (e : ℤ) : ℚ := (2 : ℚ) ^ e

/-- `IsFl64 q d`: `d` is the IEEE-754 binary64 value of the nonnegative
real `q`, in the normal range — the multiple of the ulp `2 ^ (e - 52)` of
`q`'s binade that is nearest to `q`, an exact tie going to the even
mantissa; `0` maps to `0`.  This is exactly how CPython produces each
float of `generate_document`'s percentages: `int / int` true division and
float multiplication are both correctly rounded.  (The program never
produces negative, subnormal or overflowing percentages, so those cases
are out of scope.)  `isFl64_unique` below shows the relation is a partial
function of `q`. -/
def IsFl64 (q d : ℚ) : Prop :=
  (q = 0 ∧ d = 0) ∨
  (0 < q ∧ ∃ e m : ℤ,
    pow2 e ≤ q ∧ q < pow2 (e + 1) ∧
    d = (m : ℚ) * pow2 (e - 52) ∧
    |d - q| ≤ pow2 (e - 53) ∧
    (|d - q| = pow2 (e - 53) → m % 2 = 0))

/-- Rounding half-up to one decimal place (the spec's wording), for
comparison with the rounding the program performs. -/
def roundHalfUp1 (q : ℚ) : ℚ := ((⌊q * 10 + 1/2⌋ : ℤ) : ℚ) / 10

/-- The statistics record built by `calculate_stats` (the parts
`generate_document` reads). -/
structure Stats where
  faculty_with_usage : Nat
  full_time : Nat
  total_full_time : Nat
  part_time : Nat
  total_part_time : Nat
  staff : Nat
  courses_with_usage : Nat
  total_courses : String
  specifics : Specifics

/-- The numeric work of `generate_document`, in the order the format
arguments are evaluated: full-time percentage, part-time percentage,
`int(stats['total_courses'])`, course percentage.  A zero denominator
raises `ZeroDivisionError` (and a garbage course total raises
`ValueError`), modelled as `Except.error`; there is no handler in the
source, so no report is produced in that case.  The `ok` payload
idealises the percentage values with exact-rational arithmetic; the
theorems below use only the error path, and the faithful binary64
semantics of a successfully written percentage is `IsFl64` together with
`pyRound1`. -/
def generate_document_nums (st : Stats) : Except Unit (ℚ × ℚ × ℚ) :=
  if st.total_full_time = 0 then Except.error () else
  let p1 := pyRound1 ((st.full_time : ℚ) / (st.total_full_time : ℚ) * 100)
  if st.total_part_time = 0 then Except.error () else
  let p2 := pyRound1 ((st.part_time : ℚ) / (st.total_part_time : ℚ) * 100)
  match pyInt st.total_courses with
  | none => Except.error ()
  | some tc =>
    if tc = 0 then Except.error ()
    else Except.ok (p1, p2, pyRound1 ((st.courses_with_usage : ℚ) / (tc : ℚ) * 100))

/-! ## The non-usage (inverse) report pipeline
(`facultyNotUsingD2LCalculation`) -/

/-- The rid-collection loop of `facultyNotUsingD2LCalculation` (lines
378-385): for each raw usage row, inside a `try`, test the usage predicate
and the semester tag and collect field 3; any exception in the row's
processing is caught and only skips that row. -/
def fnuCollect (semester : String) : List Row → List String
  | [] => []
  | row :: rest =>
    match usageTest row with
    | none => fnuCollect semester rest
    | some b =>
      if b && strIn semester (fld row 9) then
        fld row USAGE_ROYAL :: fnuCollect semester rest
      else fnuCollect semester rest

/-- The department lookup inside the non-usage classifier: scan the raw
roster rows and remember field 5 of the last row whose field 0 equals the
instructor's rid (the empty string when none matches). -/
def fnuDept (dataRaw : List Row) (rid : String) : String :=
  dataRaw.foldl (fun dept r => if rid = fld r FAC_ROYAL then fld r 5 else dept) ""

/-- The bucket-assignment loop of `facultyNotUsingD2LCalculation` (lines
404-423), including the inner redundant `if(row[3] in partTimeRIds)`
re-check inside the `elif` branch whose condition already requires it. -/
def fnuClassify (fullTimeRIds partTimeRIds : List String)
    (fullRaw partRaw : List Row) :
    List Row → List String → List Row × List Row × List Row
  | [], _ => ([], [], [])
  | row :: rest, seenRIds =>
    let rid := fld row USAGE_ROYAL
    if rid ∈ fullTimeRIds ∧ rid ∉ seenRIds then
      let out := fnuClassify fullTimeRIds partTimeRIds fullRaw partRaw rest
        (seenRIds ++ [rid])
      ([rid, fld row 1, fld row 2, fnuDept fullRaw rid] :: out.1, out.2.1, out.2.2)
    else if rid ∈ partTimeRIds ∧ rid ∉ seenRIds then
      if rid ∈ partTimeRIds then
        let out := fnuClassify fullTimeRIds partTimeRIds fullRaw partRaw rest
          (seenRIds ++ [rid])
        (out.1, [rid, fld row 1, fld row 2, fnuDept partRaw rid] :: out.2.1, out.2.2)
      else fnuClassify fullTimeRIds partTimeRIds fullRaw partRaw rest seenRIds
    else
      if rid ∉ seenRIds then
        let out := fnuClassify fullTimeRIds partTimeRIds fullRaw partRaw rest
          (seenRIds ++ [rid])
        (out.1, out.2.1, [rid, fld row 1, fld row 2] :: out.2.2)
      else fnuClassify fullTimeRIds partTimeRIds fullRaw partRaw rest seenRIds

/-- The same bucket assignment with the redundant inner membership re-check
deleted, following the spec's authoritative three-way rule: full-time,
else part-time, else staff (each applied once per unseen rid). -/
def fnuClassifySimp (fullTimeRIds partTimeRIds : List String)
    (fullRaw partRaw : List Row) :
    List Row → List String → List Row × List Row × List Row
  | [], _ => ([], [], [])
  | row :: rest, seenRIds =>
    let rid := fld row USAGE_ROYAL
    if rid ∈ fullTimeRIds ∧ rid ∉ seenRIds then
      let out := fnuClassifySimp fullTimeRIds partTimeRIds fullRaw partRaw rest
        (seenRIds ++ [rid])
      ([rid, fld row 1, fld row 2, fnuDept fullRaw rid] :: out.1, out.2.1, out.2.2)
    else if rid ∈ partTimeRIds ∧ rid ∉ seenRIds then
      let out := fnuClassifySimp fullTimeRIds partTimeRIds fullRaw partRaw rest
        (seenRIds ++ [rid])
      (out.1, [rid, fld row 1, fld row 2, fnuDept partRaw rid] :: out.2.1, out.2.2)
    else
      if rid ∉ seenRIds then
        let out := fnuClassifySimp fullTimeRIds partTimeRIds fullRaw partRaw rest
          (seenRIds ++ [rid])
        (out.1, out.2.1, [rid, fld row 1, fld row 2] :: out.2.2)
      else fnuClassifySimp fullTimeRIds partTimeRIds fullRaw partRaw rest seenRIds

/-! ## The destructive re-encoding pass of `parse_files` -/

/-- Universal-newline translation of Python's `rU` open mode:
`\r\n` and bare `\r` both become `\n`. -/
def normChars : List Char → List Char
  | [] => []
  | '\r' :: '\n' :: rest => '\n' :: normChars rest
  | '\r' :: rest => '\n' :: normChars rest
  | c :: rest => c :: normChars rest

/-- `csv.reader` with the excel dialect (comma delimiter, `"` quote
character, doubled quotes inside quoted fields), on newline-normalised
text: accumulates the current field and row and emits a row at each
unquoted newline. -/
def csvParseAux (delim : Char) : Bool → List Char → List String →
    List Char → List (List String)
  | _, curF, curRow, [] =>
    if curF.isEmpty && curRow.isEmpty then [] else [curRow ++ [String.mk curF]]
  | true, curF, curRow, '"' :: '"' :: cs =>
    csvParseAux delim true (curF ++ ['"']) curRow cs
  | true, curF, curRow, '"' :: cs => csvParseAux delim false curF curRow cs
  | true, curF, curRow, c :: cs => csvParseAux delim true (curF ++ [c]) curRow cs
  | false, curF, curRow, c :: cs =>
    if c = '"' then csvParseAux delim true curF curRow cs
    else if c = delim then csvParseAux delim false [] (curRow ++ [String.mk curF]) cs
    else if c = '\n' then
      (curRow ++ [String.mk curF]) :: csvParseAux delim false [] [] cs
    else csvParseAux delim false (curF ++ [c]) curRow cs

/-- Parse a whole file's text as CSV rows. -/
def csvParse (delim : Char) (s : String) : List (List String) :=
  csvParseAux delim false [] [] (normChars s.toList)

/-- Double every quote character (the writer's escaping inside a quoted
field). -/
def dupQuotes : List Char → List Char
  | [] => []
  | '"' :: rest => '"' :: '"' :: dupQuotes rest
  | c :: rest => c :: dupQuotes rest

/-- `csv.writer` field emission with minimal quoting: quote the field iff
it contains the delimiter, a quote character or a newline character. -/
def csvWriteField (delim : Char) (f : String) : String :=
  if f.toList.any (fun c => c == delim || c == '"' || c == '\r' || c == '\n') then
    "\"" ++ String.mk (dupQuotes f.toList) ++ "\""
  else f

/-- One written CSV row: fields joined by the delimiter, terminated by the
writer's default `\r\n`. -/
def csvWriteRow (delim : Char) (row : List String) : String :=
  String.intercalate (String.mk [delim]) (row.map (csvWriteField delim)) ++ "\r\n"

/-- A whole written CSV file. -/
def csvWriteRows (delim : Char) (rows : List (List String)) : String :=
  String.join (rows.map (csvWriteRow delim))

/-- The re-encoding `parse_files` applies to each input file: read it as
comma-delimited quoted CSV, re-emit it `|`-delimited. -/
def reencode (s : String) : String :=
  csvWriteRows DELIMITER (csvParse ',' s)

/-- A file system, as a map from path to text content. -/
def FileStore : Type := String → String

/-- Writing one file. -/
def fsWrite (st : FileStore) (path content : String) : FileStore :=
  fun q => if q = path then content else st q

/-- Lines 113-136 of `parse_files`: each of the three input files is read
and immediately rewritten, at its own path, with the re-encoded content —
usage file first, then the full-time roster, then the part-time roster. -/
def parse_files_rewrite (usage full_time part_time : String)
    (st : FileStore) : FileStore :=
  let st1 := fsWrite st usage (reencode (st usage))
  let st2 := fsWrite st1 full_time (reencode (st1 full_time))
  fsWrite st2 part_time (reencode (st2 part_time))

/-! ## Helper lemmas -/

theorem mem_classify_full (full_r part_r : List String) (rows : List Row) (y : Row) :
    y ∈ (classify full_r part_r rows).1 ↔
      y ∈ rows ∧ fld y USAGE_ROYAL ∈ full_r := by
  induction rows with
  | nil => simp [classify]
  | cons z rest ih =>
    by_cases h1 : fld z USAGE_ROYAL ∈ full_r
    · simp only [classify, if_pos h1, List.mem_cons, ih]
      constructor
      · rintro (rfl | ⟨hy, hk⟩)
        · exact ⟨Or.inl rfl, h1⟩
        · exact ⟨Or.inr hy, hk⟩
      · rintro ⟨rfl | hy, hk⟩
        · exact Or.inl rfl
        · exact Or.inr ⟨hy, hk⟩
    · by_cases h2 : fld z USAGE_ROYAL ∈ part_r
      · simp only [classify, if_neg h1, if_pos h2, List.mem_cons, ih]
        constructor
        · rintro ⟨hy, hk⟩
          exact ⟨Or.inr hy, hk⟩
        · rintro ⟨rfl | hy, hk⟩
          · exact absurd hk h1
          · exact ⟨hy, hk⟩
      · simp only [classify, if_neg h1, if_neg h2, List.mem_cons, ih]
        constructor
        · rintro ⟨hy, hk⟩
          exact ⟨Or.inr hy, hk⟩
        · rintro ⟨rfl | hy, hk⟩
          · exact absurd hk h1
          · exact ⟨hy, hk⟩

theorem mem_classify_part (full_r part_r : List String) (rows : List Row) (y : Row) :
    y ∈ (classify full_r part_r rows).2.1 ↔
      y ∈ rows ∧ fld y USAGE_ROYAL ∉ full_r ∧ fld y USAGE_ROYAL ∈ part_r := by
  induction rows with
  | nil => simp [classify]
  | cons z rest ih =>
    by_cases h1 : fld z USAGE_ROYAL ∈ full_r
    · simp only [classify, if_pos h1, List.mem_cons, ih]
      constructor
      · rintro ⟨hy, hk⟩
        exact ⟨Or.inr hy, hk⟩
      · rintro ⟨rfl | hy, hk⟩
        · exact absurd h1 hk.1
        · exact ⟨hy, hk⟩
    · by_cases h2 : fld z USAGE_ROYAL ∈ part_r
      · simp only [classify, if_neg h1, if_pos h2, List.mem_cons, ih]
        constructor
        · rintro (rfl | ⟨hy, hk⟩)
          · exact ⟨Or.inl rfl, h1, h2⟩
          · exact ⟨Or.inr hy, hk⟩
        · rintro ⟨rfl | hy, hk⟩
          · exact Or.inl rfl
          · exact Or.inr ⟨hy, hk⟩
      · simp only [classify, if_neg h1, if_neg h2, List.mem_cons, ih]
        constructor
        · rintro ⟨hy, hk⟩
          exact ⟨Or.inr hy, hk⟩
        · rintro ⟨rfl | hy, hk⟩
          · exact absurd hk.2 h2
          · exact ⟨hy, hk⟩

theorem mem_classify_staff (full_r part_r : List String) (rows : List Row) (y : Row) :
    y ∈ (classify full_r part_r rows).2.2 ↔
      y ∈ rows ∧ fld y USAGE_ROYAL ∉ full_r ∧ fld y USAGE_ROYAL ∉ part_r := by
  induction rows with
  | nil => simp [classify]
  | cons z rest ih =>
    by_cases h1 : fld z USAGE_ROYAL ∈ full_r
    · simp only [classify, if_pos h1, List.mem_cons, ih]
      constructor
      · rintro ⟨hy, hk⟩
        exact ⟨Or.inr hy, hk⟩
      · rintro ⟨rfl | hy, hk⟩
        · exact absurd h1 hk.1
        · exact ⟨hy, hk⟩
    · by_cases h2 : fld z USAGE_ROYAL ∈ part_r
      · simp only [classify, if_neg h1, if_pos h2, List.mem_cons, ih]
        constructor
        · rintro ⟨hy, hk⟩
          exact ⟨Or.inr hy, hk⟩
        · rintro ⟨rfl | hy, hk⟩
          · exact absurd h2 hk.2
          · exact ⟨hy, hk⟩
      · simp only [classify, if_neg h1, if_neg h2, List.mem_cons, ih]
        constructor
        · rintro (rfl | ⟨hy, hk⟩)
          · exact ⟨Or.inl rfl, h1, h2⟩
          · exact ⟨Or.inr hy, hk⟩
        · rintro ⟨rfl | hy, hk⟩
          · exact Or.inl rfl
          · exact Or.inr ⟨hy, hk⟩

theorem classify_append_perm (full_r part_r : List String) (rows : List Row) :
    ((classify full_r part_r rows).1 ++ (classify full_r part_r rows).2.1 ++
      (classify full_r part_r rows).2.2).Perm rows := by
  induction rows with
  | nil => simp [classify]
  | cons z rest ih =>
    by_cases h1 : fld z USAGE_ROYAL ∈ full_r
    · simpa [classify, if_pos h1] using ih.cons z
    · by_cases h2 : fld z USAGE_ROYAL ∈ part_r
      · simp only [classify, if_neg h1, if_pos h2]
        have hmid : ((classify full_r part_r rest).1 ++
            (z :: (classify full_r part_r rest).2.1) ++
            (classify full_r part_r rest).2.2).Perm
            (z :: ((classify full_r part_r rest).1 ++
              (classify full_r part_r rest).2.1 ++
              (classify full_r part_r rest).2.2)) := by
          simp [List.append_assoc]
        exact hmid.trans (ih.cons z)
      · simp only [classify, if_neg h1, if_neg h2]
        have hmid : ((classify full_r part_r rest).1 ++
            (classify full_r part_r rest).2.1 ++
            (z :: (classify full_r part_r rest).2.2)).Perm
            (z :: ((classify full_r part_r rest).1 ++
              (classify full_r part_r rest).2.1 ++
              (classify full_r part_r rest).2.2)) := by
          have hstep : (((classify full_r part_r rest).1 ++
              (classify full_r part_r rest).2.1) ++
              z :: (classify full_r part_r rest).2.2).Perm
              (z :: (((classify full_r part_r rest).1 ++
                (classify full_r part_r rest).2.1) ++
                (classify full_r part_r rest).2.2)) := List.perm_middle
          simpa [List.append_assoc] using hstep
        exact hmid.trans (ih.cons z)

/-- C1: the classifier at the end of `parse_files` assigns each
instructor-deduplicated usage row to exactly one of the buckets full-time,
part-time, staff, testing full-time membership first, then part-time, else
staff; the buckets are pairwise disjoint and their concatenation is a
permutation of the input row list. -/
theorem classify_partition (full_r part_r : List String) (rows : List Row) :
    (∀ y, y ∈ (classify full_r part_r rows).1 ↔
      y ∈ rows ∧ fld y USAGE_ROYAL ∈ full_r) ∧
    (∀ y, y ∈ (classify full_r part_r rows).2.1 ↔
      y ∈ rows ∧ fld y USAGE_ROYAL ∉ full_r ∧ fld y USAGE_ROYAL ∈ part_r) ∧
    (∀ y, y ∈ (classify full_r part_r rows).2.2 ↔
      y ∈ rows ∧ fld y USAGE_ROYAL ∉ full_r ∧ fld y USAGE_ROYAL ∉ part_r) ∧
    (∀ y, y ∈ (classify full_r part_r rows).1 →
      y ∉ (classify full_r part_r rows).2.1 ∧
      y ∉ (classify full_r part_r rows).2.2) ∧
    (∀ y, y ∈ (classify full_r part_r rows).2.1 →
      y ∉ (classify full_r part_r rows).2.2) ∧
    ((classify full_r part_r rows).1 ++ (classify full_r part_r rows).2.1 ++
      (classify full_r part_r rows).2.2).Perm rows := by
  refine ⟨mem_classify_full full_r part_r rows,
    mem_classify_part full_r part_r rows,
    mem_classify_staff full_r part_r rows, ?_, ?_,
    classify_append_perm full_r part_r rows⟩
  · intro y hy
    have hk := (mem_classify_full full_r part_r rows y).1 hy
    constructor
    · intro hp
      exact ((mem_classify_part full_r part_r rows y).1 hp).2.1 hk.2
    · intro hs
      exact ((mem_classify_staff full_r part_r rows y).1 hs).2.1 hk.2
  · intro y hy hs
    exact ((mem_classify_staff full_r part_r rows y).1 hs).2.2
      ((mem_classify_part full_r part_r rows y).1 hy).2.2

theorem usageTest_eq (y : Row) (a g gr d : Int)
    (ha : pyInt (fld y ASSIGNMENTS) = some a) (hg : pyInt (fld y GRADE) = some g)
    (hgr : pyInt (fld y GRADED) = some gr) (hd : pyInt (fld y DISCUSSION) = some d) :
    usageTest y =
      some (decide (0 < a) || decide (2 < g) || decide (0 < gr) || decide (0 < d)) := by
  simp only [usageTest, ha, hg, hgr, hd]
  by_cases h1 : 0 < a <;> by_cases h2 : 2 < g <;> by_cases h3 : 0 < gr <;>
    simp [h1, h2, h3]

/-- C2: for rows whose four activity-counter fields parse as integers,
`get_rows_with_usage` keeps a row iff
`assignments > 0 ∨ grade > 2 ∨ graded > 0 ∨ discussion > 0`; a row whose
only activity is the sentinel grade-score 2 is excluded. -/
theorem get_rows_with_usage_keeps_iff (rows : List Row)
    (h : ∀ y ∈ rows, (pyInt (fld y ASSIGNMENTS)).isSome ∧
      (pyInt (fld y GRADE)).isSome ∧ (pyInt (fld y GRADED)).isSome ∧
      (pyInt (fld y DISCUSSION)).isSome) :
    get_rows_with_usage rows = Except.ok (rows.filter usageKeep) ∧
    (∀ y a g gr d, pyInt (fld y ASSIGNMENTS) = some a →
      pyInt (fld y GRADE) = some g → pyInt (fld y GRADED) = some gr →
      pyInt (fld y DISCUSSION) = some d →
      (usageKeep y = true ↔ 0 < a ∨ 2 < g ∨ 0 < gr ∨ 0 < d)) ∧
    (∀ y, pyInt (fld y ASSIGNMENTS) = some 0 → pyInt (fld y GRADE) = some 2 →
      pyInt (fld y GRADED) = some 0 → pyInt (fld y DISCUSSION) = some 0 →
      usageKeep y = false) := by
  refine ⟨?_, ?_, ?_⟩
  · induction rows with
    | nil => rfl
    | cons y rest ih =>
      obtain ⟨ha, hg, hgr, hd⟩ := h y (List.mem_cons_self y rest)
      obtain ⟨a, ha⟩ := Option.isSome_iff_exists.1 ha
      obtain ⟨g, hg⟩ := Option.isSome_iff_exists.1 hg
      obtain ⟨gr, hgr⟩ := Option.isSome_iff_exists.1 hgr
      obtain ⟨d, hd⟩ := Option.isSome_iff_exists.1 hd
      have hrest := ih (fun z hz => h z (List.mem_cons_of_mem y hz))
      have hy := usageTest_eq y a g gr d ha hg hgr hd
      have hk : usageKeep y = (decide (0 < a) || decide (2 < g) ||
          decide (0 < gr) || decide (0 < d)) := by
        simp [usageKeep, hy]
      simp only [get_rows_with_usage, hy, hrest, List.filter_cons, hk]
  · intro y a g gr d ha hg hgr hd
    have hy := usageTest_eq y a g gr d ha hg hgr hd
    simp [usageKeep, hy, or_assoc]
  · intro y ha hg hgr hd
    have hy := usageTest_eq y 0 2 0 0 ha hg hgr hd
    simp [usageKeep, hy]

/-- A well-formed usage row whose four counters are `a`, `g`, `gr`, `d`
and whose semester field is `sem` (a test fixture shaped like one line of
the usage file split on the delimiter). -/
def sampleRow (sem a g gr d : String) : Row :=
  ["0", "Last", "First", "R001", "4", "5", "6", "7", "8", sem,
   "10", "11", "12", a, "14", g, gr, "17", d]

def c2rowActive : Row := sampleRow "2019_Spring_10001" "1" "0" "0" "0"

def c2rowSentinel : Row := sampleRow "2019_Spring_10002" "0" "2" "0" "0"

theorem get_rows_with_usage_keeps_iff_witness :
    get_rows_with_usage [c2rowActive, c2rowSentinel] =
      Except.ok ([c2rowActive, c2rowSentinel].filter usageKeep) ∧
    usageKeep c2rowSentinel = false :=
  ⟨(get_rows_with_usage_keeps_iff [c2rowActive, c2rowSentinel] (by decide)).1,
   (get_rows_with_usage_keeps_iff [c2rowActive, c2rowSentinel] (by decide)).2.2
      c2rowSentinel rfl rfl rfl rfl⟩

def c3r1 : Row := sampleRow "2019_Spring_10001" "1" "0" "0" "0"

def c3r2 : Row := sampleRow "2019_Spring_10002" "2" "0" "0" "0"

def c3r3 : Row := sampleRow "2019_Spring_10001" "3" "0" "0" "0"

def c3r4 : Row := sampleRow "2019_Spring_10003" "0" "2" "0" "0"

def c3r5 : Row := sampleRow "2019_Spring_10004" "0" "2" "0" "0"

/-- The spec's C3 scenario: five rows for semester 2019_Spring, three with
assignments > 0 of which one repeats a course id, two with the sentinel
grade-score 2 and no other activity. -/
def c3rows : List Row := [c3r1, c3r2, c3r3, c3r4, c3r5]

/-- C3 counterexample: on the spec's own scenario the pipeline of
`parse_files` (semester filter, usage filter, course-id deduplication)
yields courses-with-usage = 2 as claimed, but `calculate_stats` computes
the per-category counts over the course-deduplicated list
`semester_no_dup_crn`, so the assignments-category count is 2, not the
claimed 3. -/
theorem calc_specifics_scenario_counterexample :
    c3rows.length = 5 ∧
    filter_for_semester c3rows "2019_Spring" = c3rows ∧
    c3rows.countP (fun y => decide (0 < (pyInt (fld y ASSIGNMENTS)).getD 0)) = 3 ∧
    c3rows.countP (fun y => decide ((pyInt (fld y GRADE)).getD 0 = 2)) = 2 ∧
    crnKey c3r1 = crnKey c3r3 ∧
    semesterNoDupCrn c3rows "2019_Spring" = Except.ok [c3r1, c3r2] ∧
    (List.length [c3r1, c3r2] = 2) ∧
    calc_specifics [c3r1, c3r2] = Except.ok ⟨2, 0, 0, 0⟩ ∧
    (2 : Nat) ≠ 3 :=
  ⟨rfl, rfl, rfl, rfl, rfl, rfl, rfl, rfl, by decide⟩

/-- C3 amended: `calculate_stats` counts, for each of the four activity
categories independently, how many rows of the course-deduplicated list
trip that category's predicate (one row may contribute to several
categories); on the spec's scenario the assignments-category count is
therefore 2, matching the two deduplicated courses, not 3. -/
theorem calc_specifics_counts (courses : List Row)
    (h : ∀ y ∈ courses, (pyInt (fld y ASSIGNMENTS)).isSome ∧
      (pyInt (fld y GRADE)).isSome ∧ (pyInt (fld y GRADED)).isSome ∧
      (pyInt (fld y DISCUSSION)).isSome) :
    calc_specifics courses = Except.ok
      ⟨courses.countP (fun y => decide (0 < (pyInt (fld y ASSIGNMENTS)).getD 0)),
       courses.countP (fun y => decide (2 < (pyInt (fld y GRADE)).getD 0)),
       courses.countP (fun y => decide (0 < (pyInt (fld y GRADED)).getD 0)),
       courses.countP (fun y => decide (0 < (pyInt (fld y DISCUSSION)).getD 0))⟩ := by
  induction courses with
  | nil => rfl
  | cons y rest ih =>
    obtain ⟨ha, hg, hgr, hd⟩ := h y (List.mem_cons_self y rest)
    obtain ⟨a, ha⟩ := Option.isSome_iff_exists.1 ha
    obtain ⟨g, hg⟩ := Option.isSome_iff_exists.1 hg
    obtain ⟨gr, hgr⟩ := Option.isSome_iff_exists.1 hgr
    obtain ⟨d, hd⟩ := Option.isSome_iff_exists.1 hd
    have hrest := ih (fun z hz => h z (List.mem_cons_of_mem y hz))
    simp only [calc_specifics, ha, hg, hgr, hd, hrest, List.countP_cons,
      Option.getD_some]
    by_cases h1 : 0 < a <;> by_cases h2 : 2 < g <;> by_cases h3 : 0 < gr <;>
      by_cases h4 : 0 < d <;>
      simp [h1, h2, h3, h4, Nat.add_comm]

/-- A row contributing to two categories at once (assignments and
discussions). -/
def c3rowMulti : Row := sampleRow "2019_Spring_10009" "1" "0" "0" "5"

theorem calc_specifics_counts_witness :
    calc_specifics [c3rowMulti] = Except.ok ⟨1, 0, 0, 1⟩ :=
  calc_specifics_counts [c3rowMulti] (by decide)

theorem rne_dist (q : ℚ) : |(rne q : ℚ) - q| ≤ 1/2 := by
  have h0 : (0 : ℚ) ≤ q - ⌊q⌋ := sub_nonneg.mpr (Int.floor_le q)
  have h1 : q - ⌊q⌋ < 1 := by
    have := Int.lt_floor_add_one q
    linarith
  unfold rne
  split_ifs with hlt hgt hev
  · rw [abs_sub_comm, abs_of_nonneg h0]
    linarith
  · push_cast
    rw [abs_of_nonneg (by linarith)]
    linarith
  · rw [abs_sub_comm, abs_of_nonneg h0]
    linarith
  · push_cast
    rw [abs_of_nonneg (by linarith)]
    linarith

theorem rne_tie_even (q : ℚ) (h : |(rne q : ℚ) - q| = 1/2) : rne q % 2 = 0 := by
  have h0 : (0 : ℚ) ≤ q - ⌊q⌋ := sub_nonneg.mpr (Int.floor_le q)
  have h1 : q - ⌊q⌋ < 1 := by
    have := Int.lt_floor_add_one q
    linarith
  by_cases hlt : q - ⌊q⌋ < 1/2
  · exfalso
    rw [show rne q = ⌊q⌋ from by unfold rne; rw [if_pos hlt]] at h
    rw [abs_sub_comm, abs_of_nonneg h0] at h
    exact ne_of_lt hlt h
  · by_cases hgt : (1 : ℚ)/2 < q - ⌊q⌋
    · exfalso
      rw [show rne q = ⌊q⌋ + 1 from by unfold rne; rw [if_neg hlt, if_pos hgt]] at h
      rw [show ((⌊q⌋ + 1 : ℤ) : ℚ) - q = 1 - (q - ⌊q⌋) by push_cast; ring,
        abs_of_nonneg (by linarith)] at h
      exact ne_of_gt hgt (by linarith)
    · by_cases hev : ⌊q⌋ % 2 = 0
      · rw [show rne q = ⌊q⌋ from by unfold rne; rw [if_neg hlt, if_neg hgt, if_pos hev]]
        exact hev
      · rw [show rne q = ⌊q⌋ + 1 from by
          unfold rne; rw [if_neg hlt, if_neg hgt, if_neg hev]]
        omega

theorem pow2_pos (e : ℤ) : 0 < pow2 e :=
  zpow_pos (by norm_num) e

theorem pow2_le_pow2 (a b : ℤ) (h : a ≤ b) : pow2 a ≤ pow2 b :=
  zpow_le_zpow_right₀ (by norm_num) h

theorem pow2_add (a b : ℤ) : pow2 (a + b) = pow2 a * pow2 b :=
  zpow_add₀ (by norm_num) a b

theorem isFl64_err (q d : ℚ) (h : IsFl64 q d) :
    0 ≤ q ∧ 0 ≤ d ∧ |d - q| ≤ q * (1 / 2 ^ 53) := by
  rcases h with ⟨hq, hd⟩ | ⟨hq, e, m, h1, h2, _hd, h3, _h4⟩
  · subst hq
    subst hd
    norm_num
  · have hp53 : pow2 (e - 53) = pow2 e * (1 / 2 ^ 53) := by
      rw [show e - 53 = e + (-53) from by ring, pow2_add]
      congr 1
      norm_num [pow2]

    have hbound : pow2 (e - 53) ≤ q * (1 / 2 ^ 53) := by
      rw [hp53]
      exact mul_le_mul_of_nonneg_right h1 (by norm_num)
    have hmono : pow2 (e - 53) ≤ pow2 e := pow2_le_pow2 _ _ (by omega)
    have hlow := (abs_le.1 h3).1
    exact ⟨le_of_lt hq, by linarith, le_trans h3 hbound⟩

theorem isFl64_exp_unique (q : ℚ) (e e' : ℤ)
    (h1 : pow2 e ≤ q) (h2 : q < pow2 (e + 1))
    (h1' : pow2 e' ≤ q) (h2' : q < pow2 (e' + 1)) : e = e' := by
  by_contra hne
  rcases lt_or_gt_of_ne hne with h | h
  · have := pow2_le_pow2 (e + 1) e' (by omega)
    linarith
  · have := pow2_le_pow2 (e' + 1) e (by omega)
    linarith

/-- The binary64 relation is deterministic: at most one `d` rounds from a
given `q`, so `IsFl64` pins down exactly the float the program computes. -/
theorem isFl64_unique (q d d' : ℚ) (h : IsFl64 q d) (h' : IsFl64 q d') :
    d = d' := by
  rcases h with ⟨hq, hd⟩ | ⟨hq, e, m, h1, h2, hd, h3, h4⟩
  · rcases h' with ⟨_, hd'⟩ | ⟨hq', _⟩
    · rw [hd, hd']
    · rw [hq] at hq'
      exact absurd hq' (lt_irrefl 0)
  · rcases h' with ⟨hq', _⟩ | ⟨_, e', m', h1', h2', hd', h3', h4'⟩
    · rw [hq'] at hq
      exact absurd hq (lt_irrefl 0)
    · have hee : e = e' := isFl64_exp_unique q e e' h1 h2 h1' h2'
      subst hee
      have hupos : 0 < pow2 (e - 52) := pow2_pos _
      have huhalf : pow2 (e - 53) + pow2 (e - 53) = pow2 (e - 52) := by
        rw [show e - 52 = (e - 53) + 1 from by ring, pow2_add]
        have h21 : pow2 (1 : ℤ) = 2 := by norm_num [pow2]
        rw [h21]
        ring
      have hdd : |d - d'| ≤ pow2 (e - 52) := by
        calc |d - d'| ≤ |d - q| + |q - d'| := abs_sub_le d q d'
          _ = |d - q| + |d' - q| := by rw [abs_sub_comm q d']
          _ ≤ pow2 (e - 53) + pow2 (e - 53) := add_le_add h3 h3'
          _ = pow2 (e - 52) := huhalf
      have hdmm : d - d' = ((m - m' : ℤ) : ℚ) * pow2 (e - 52) := by
        rw [hd, hd']
        push_cast
        ring
      have h5 : |((m - m' : ℤ) : ℚ)| ≤ 1 := by
        have hx : |((m - m' : ℤ) : ℚ)| * pow2 (e - 52) ≤ 1 * pow2 (e - 52) := by
          rw [one_mul]
          calc |((m - m' : ℤ) : ℚ)| * pow2 (e - 52)
              = |((m - m' : ℤ) : ℚ)| * |pow2 (e - 52)| := by
                rw [abs_of_pos hupos]
            _ = |((m - m' : ℤ) : ℚ) * pow2 (e - 52)| := (abs_mul _ _).symm
            _ = |d - d'| := by rw [← hdmm]
            _ ≤ pow2 (e - 52) := hdd
        exact le_of_mul_le_mul_right hx hupos
      have hmm1 : |m - m'| ≤ 1 := by
        rw [← Int.cast_abs] at h5
        exact_mod_cast h5
      rcases eq_or_ne m m' with heq | hneq
      · rw [hd, hd', heq]
      · exfalso
        have habs1 : |m - m'| = 1 := by
          rcases abs_le.1 hmm1 with ⟨ha, hb⟩
          rcases lt_trichotomy (m - m') 0 with h | h | h
          · rw [abs_of_neg h]
            omega
          · exact absurd (by omega : m = m') hneq
          · rw [abs_of_pos h]
            omega
        have hddu : |d - d'| = pow2 (e - 52) := by
          rw [hdmm, abs_mul, abs_of_pos hupos, ← Int.cast_abs, habs1]
          norm_num
        have ht : pow2 (e - 52) ≤ |d - q| + |d' - q| := by
          calc pow2 (e - 52) = |d - d'| := hddu.symm
            _ ≤ |d - q| + |q - d'| := abs_sub_le d q d'
            _ = |d - q| + |d' - q| := by rw [abs_sub_comm q d']
        have h6 : |d - q| = pow2 (e - 53) := by linarith
        have h6' : |d' - q| = pow2 (e - 53) := by linarith
        have hm2 := h4 h6
        have hm2' := h4' h6'
        rcases abs_le.1 hmm1 with ⟨ha, hb⟩
        omega

theorem isFl64_41_400 :
    IsFl64 ((41 : ℚ) / 400) (7385903388887613 / 2 ^ 56) := by
  have habs : |(7385903388887613 / 2 ^ 56 : ℚ) - 41 / 400| =
      11 / (25 * 2 ^ 56) := by
    rw [show (7385903388887613 / 2 ^ 56 : ℚ) - 41 / 400 =
        -(11 / (25 * 2 ^ 56)) from by norm_num,
      abs_neg, abs_of_nonneg (by positivity)]
  refine Or.inr ⟨by norm_num, -4, 7385903388887613, by norm_num [pow2],
    by norm_num [pow2], by norm_num [pow2], ?_, ?_⟩
  · rw [habs]
    norm_num [pow2]
  · intro h
    rw [habs] at h
    norm_num [pow2] at h

theorem isFl64_41_400_times100 :
    IsFl64 ((7385903388887613 / 2 ^ 56 : ℚ) * 100) (41 / 4) := by
  have habs : |(41 / 4 : ℚ) - 7385903388887613 / 2 ^ 56 * 100| =
      11 / 2 ^ 54 := by
    rw [show (41 / 4 : ℚ) - 7385903388887613 / 2 ^ 56 * 100 =
        11 / 2 ^ 54 from by norm_num,
      abs_of_nonneg (by positivity)]
  refine Or.inr ⟨by norm_num, 3, 5770237022568448, by norm_num [pow2],
    by norm_num [pow2], by norm_num [pow2], ?_, ?_⟩
  · rw [habs]
    norm_num [pow2]
  · intro h
    rw [habs] at h
    norm_num [pow2] at h

theorem isFl64_7_10 :
    IsFl64 ((7 : ℚ) / 10) (6305039478318694 / 2 ^ 53) := by
  have habs : |(6305039478318694 / 2 ^ 53 : ℚ) - 7 / 10| = 1 / (5 * 2 ^ 52) := by
    rw [show (6305039478318694 / 2 ^ 53 : ℚ) - 7 / 10 =
        -(1 / (5 * 2 ^ 52)) from by norm_num,
      abs_neg, abs_of_nonneg (by positivity)]
  refine Or.inr ⟨by norm_num, -1, 6305039478318694, by norm_num [pow2],
    by norm_num [pow2], by norm_num [pow2], ?_, ?_⟩
  · rw [habs]
    norm_num [pow2]
  · intro h
    rw [habs] at h
    norm_num [pow2] at h

theorem isFl64_7_10_times100 :
    IsFl64 ((6305039478318694 / 2 ^ 53 : ℚ) * 100) 70 := by
  have habs : |(70 : ℚ) - 6305039478318694 / 2 ^ 53 * 100| = 5 / 2 ^ 50 := by
    rw [show (70 : ℚ) - 6305039478318694 / 2 ^ 53 * 100 = 5 / 2 ^ 50 from by
        norm_num,
      abs_of_nonneg (by positivity)]
  refine Or.inr ⟨by norm_num, 6, 4925812092436480, by norm_num [pow2],
    by norm_num [pow2], by norm_num [pow2], ?_, ?_⟩
  · rw [habs]
    norm_num [pow2]
  · intro h
    rw [habs] at h
    norm_num [pow2] at h

theorem isFl64_1_3 :
    IsFl64 ((1 : ℚ) / 3) (6004799503160661 / 2 ^ 54) := by
  have habs : |(6004799503160661 / 2 ^ 54 : ℚ) - 1 / 3| = 1 / (3 * 2 ^ 54) := by
    rw [show (6004799503160661 / 2 ^ 54 : ℚ) - 1 / 3 =
        -(1 / (3 * 2 ^ 54)) from by norm_num,
      abs_neg, abs_of_nonneg (by positivity)]
  refine Or.inr ⟨by norm_num, -2, 6004799503160661, by norm_num [pow2],
    by norm_num [pow2], by norm_num [pow2], ?_, ?_⟩
  · rw [habs]
    norm_num [pow2]
  · intro h
    rw [habs] at h
    norm_num [pow2] at h

theorem isFl64_1_3_times100 :
    IsFl64 ((6004799503160661 / 2 ^ 54 : ℚ) * 100)
      (4691249611844266 / 2 ^ 47) := by
  have habs : |(4691249611844266 / 2 ^ 47 : ℚ) -
      6004799503160661 / 2 ^ 54 * 100| = 13 / 2 ^ 52 := by
    rw [show (4691249611844266 / 2 ^ 47 : ℚ) -
        6004799503160661 / 2 ^ 54 * 100 = -(13 / 2 ^ 52) from by norm_num,
      abs_neg, abs_of_nonneg (by positivity)]
  refine Or.inr ⟨by norm_num, 5, 4691249611844266, by norm_num [pow2],
    by norm_num [pow2], by norm_num [pow2], ?_, ?_⟩
  · rw [habs]
    norm_num [pow2]
  · intro h
    rw [habs] at h
    norm_num [pow2] at h

theorem isFl64_2_4000 :
    IsFl64 (((2 : ℕ) : ℚ) / ((4000 : ℕ) : ℚ))
      (4611686018427388 / 2 ^ 63) := by
  have hq : ((2 : ℕ) : ℚ) / ((4000 : ℕ) : ℚ) = 1 / 2000 := by norm_num
  rw [hq]
  have habs : |(4611686018427388 / 2 ^ 63 : ℚ) - 1 / 2000| =
      3 / (125 * 2 ^ 61) := by
    rw [show (4611686018427388 / 2 ^ 63 : ℚ) - 1 / 2000 =
        3 / (125 * 2 ^ 61) from by norm_num,
      abs_of_nonneg (by positivity)]
  refine Or.inr ⟨by norm_num, -11, 4611686018427388, by norm_num [pow2],
    by norm_num [pow2], by norm_num [pow2], ?_, ?_⟩
  · rw [habs]
    norm_num [pow2]
  · intro h
    rw [habs] at h
    norm_num [pow2] at h

theorem isFl64_2_4000_times100 :
    IsFl64 ((4611686018427388 / 2 ^ 63 : ℚ) * 100)
      (7205759403792794 / 2 ^ 57) := by
  have habs : |(7205759403792794 / 2 ^ 57 : ℚ) -
      4611686018427388 / 2 ^ 63 * 100| = 1 / 2 ^ 59 := by
    rw [show (7205759403792794 / 2 ^ 57 : ℚ) -
        4611686018427388 / 2 ^ 63 * 100 = 1 / 2 ^ 59 from by norm_num,
      abs_of_nonneg (by positivity)]
  refine Or.inr ⟨by norm_num, -5, 7205759403792794, by norm_num [pow2],
    by norm_num [pow2], by norm_num [pow2], ?_, ?_⟩
  · rw [habs]
    norm_num [pow2]
  · intro h
    rw [habs] at h
    norm_num [pow2] at h

/-- C4 counterexample: at count = 41, total = 400 the binary64 pipeline of
`generate_document` divides and multiplies to exactly 10.25 (`IsFl64`
pins both intermediate floats down uniquely), and Python's `round` writes
10.2 — not the 10.3 the claim's half-up rounding demands. -/
theorem pct_half_up_counterexample :
    IsFl64 ((41 : ℚ) / 400) (7385903388887613 / 2 ^ 56) ∧
    IsFl64 ((7385903388887613 / 2 ^ 56 : ℚ) * 100) (41 / 4) ∧
    pyRound1 ((41 : ℚ) / 4) = 51 / 5 ∧
    roundHalfUp1 ((41 : ℚ) / 400 * 100) = 103 / 10 ∧
    (51 / 5 : ℚ) ≠ 103 / 10 :=
  ⟨isFl64_41_400, isFl64_41_400_times100,
   by norm_num [pyRound1, rne],
   by norm_num [roundHalfUp1],
   by norm_num⟩

/-- C4 amended: each percentage written into the report is Python's
`round` of the binary64 evaluation of `count / total * 100` (division and
multiplication each correctly rounded to 53-bit precision, ties to even):
an integer multiple of 0.1 within half a tenth of that binary64 value, an
exact half of that value going to the even tenth — not rounding half-up,
and not rounding of the exact ratio.  The binary64 value is within
relative error `3 / 2 ^ 53` of the exact percentage; the spec's examples
7/10 → 70.0 and 1/3 → 33.3 hold, while at a near-tie the float error
decides: 2/4000, whose exact percentage is the tie 0.05, floats just
above it and is written as 0.1. -/
theorem pct_rounds_to_nearest_tenth (count total : ℕ) (d1 d2 : ℚ)
    (_h0 : 0 < total)
    (h1 : IsFl64 ((count : ℚ) / (total : ℚ)) d1)
    (h2 : IsFl64 (d1 * 100) d2) :
    ((∃ k : ℤ, pyRound1 d2 = (k : ℚ) / 10 ∧ |(k : ℚ) - d2 * 10| ≤ 1/2 ∧
      (|(k : ℚ) - d2 * 10| = 1/2 → k % 2 = 0)) ∧
     |d2 - (count : ℚ) / (total : ℚ) * 100| ≤
       (count : ℚ) / (total : ℚ) * 100 * (3 / 2 ^ 53)) ∧
    (IsFl64 ((7 : ℚ) / 10) (6305039478318694 / 2 ^ 53) ∧
     IsFl64 ((6305039478318694 / 2 ^ 53 : ℚ) * 100) 70 ∧
     pyRound1 (70 : ℚ) = 70) ∧
    (IsFl64 ((1 : ℚ) / 3) (6004799503160661 / 2 ^ 54) ∧
     IsFl64 ((6004799503160661 / 2 ^ 54 : ℚ) * 100)
       (4691249611844266 / 2 ^ 47) ∧
     pyRound1 ((4691249611844266 : ℚ) / 2 ^ 47) = 333 / 10) ∧
    (IsFl64 (((2 : ℕ) : ℚ) / ((4000 : ℕ) : ℚ)) (4611686018427388 / 2 ^ 63) ∧
     IsFl64 ((4611686018427388 / 2 ^ 63 : ℚ) * 100)
       (7205759403792794 / 2 ^ 57) ∧
     pyRound1 ((7205759403792794 : ℚ) / 2 ^ 57) = 1 / 10) := by
  obtain ⟨hq1, hd1n, he1⟩ := isFl64_err _ _ h1
  obtain ⟨_, _, he2⟩ := isFl64_err _ _ h2
  refine ⟨⟨⟨rne (d2 * 10), rfl, rne_dist _, rne_tie_even _⟩, ?_⟩,
    ⟨isFl64_7_10, isFl64_7_10_times100, by norm_num [pyRound1, rne]⟩,
    ⟨isFl64_1_3, isFl64_1_3_times100, by norm_num [pyRound1, rne]⟩,
    ⟨isFl64_2_4000, isFl64_2_4000_times100, by norm_num [pyRound1, rne]⟩⟩
  set q := (count : ℚ) / (total : ℚ) with hqdef
  have ha1 := abs_le.1 he1
  have hq53 : 0 ≤ q * (1 - 1 / 2 ^ 53) := mul_nonneg hq1 (by norm_num)
  have hd1le : d1 ≤ 2 * q := by linarith [ha1.2]
  have h100 : |d1 * 100 - q * 100| = |d1 - q| * 100 := by
    rw [show d1 * 100 - q * 100 = (d1 - q) * 100 from by ring, abs_mul]
    norm_num
  have hstep1 : |d2 - d1 * 100| ≤ 2 * q * 100 * (1 / 2 ^ 53) := by
    refine le_trans he2 ?_
    have hmul := mul_le_mul_of_nonneg_right hd1le
      (show (0 : ℚ) ≤ 100 * (1 / 2 ^ 53) from by norm_num)
    calc d1 * 100 * (1 / 2 ^ 53) = d1 * (100 * (1 / 2 ^ 53)) := by ring
      _ ≤ 2 * q * (100 * (1 / 2 ^ 53)) := hmul
      _ = 2 * q * 100 * (1 / 2 ^ 53) := by ring
  have hstep2 : |d1 - q| * 100 ≤ q * 100 * (1 / 2 ^ 53) := by
    have hmul := mul_le_mul_of_nonneg_right he1 (show (0 : ℚ) ≤ 100 from by norm_num)
    calc |d1 - q| * 100 ≤ q * (1 / 2 ^ 53) * 100 := hmul
      _ = q * 100 * (1 / 2 ^ 53) := by ring
  calc |d2 - q * 100| ≤ |d2 - d1 * 100| + |d1 * 100 - q * 100| :=
        abs_sub_le _ _ _
    _ = |d2 - d1 * 100| + |d1 - q| * 100 := by rw [h100]
    _ ≤ 2 * q * 100 * (1 / 2 ^ 53) + q * 100 * (1 / 2 ^ 53) :=
        add_le_add hstep1 hstep2
    _ = q * 100 * (3 / 2 ^ 53) := by ring

theorem pct_rounds_to_nearest_tenth_witness :
    (∃ k : ℤ, pyRound1 ((7205759403792794 : ℚ) / 2 ^ 57) = (k : ℚ) / 10 ∧
      |(k : ℚ) - (7205759403792794 : ℚ) / 2 ^ 57 * 10| ≤ 1/2 ∧
      (|(k : ℚ) - (7205759403792794 : ℚ) / 2 ^ 57 * 10| = 1/2 → k % 2 = 0)) ∧
    |(7205759403792794 : ℚ) / 2 ^ 57 - ((2 : ℕ) : ℚ) / ((4000 : ℕ) : ℚ) * 100| ≤
      ((2 : ℕ) : ℚ) / ((4000 : ℕ) : ℚ) * 100 * (3 / 2 ^ 53) :=
  ⟨(pct_rounds_to_nearest_tenth 2 4000 (4611686018427388 / 2 ^ 63)
      (7205759403792794 / 2 ^ 57) (by norm_num) isFl64_2_4000
      isFl64_2_4000_times100).1.1,
   (pct_rounds_to_nearest_tenth 2 4000 (4611686018427388 / 2 ^ 63)
      (7205759403792794 / 2 ^ 57) (by norm_num) isFl64_2_4000
      isFl64_2_4000_times100).1.2⟩

/-- The spec's C5 scenario: total_full_time = 0 with full-time usage
count = 0 (the part-time roster is nonempty and the course total parses,
so the full-time division is the only failing statistic). -/
def c5stats : Stats := ⟨0, 0, 0, 0, 1, 0, 0, "10", ⟨0, 0, 0, 0⟩⟩

/-- C5 counterexample: on the scenario stats, `generate_document` raises
`ZeroDivisionError` (an `Except.error`, so no report text is produced at
all), instead of reporting an explicit "not applicable" value for the
statistic. -/
theorem generate_document_zero_denominator_counterexample :
    c5stats.total_full_time = 0 ∧ c5stats.full_time = 0 ∧
    generate_document_nums c5stats = Except.error () :=
  ⟨rfl, rfl, rfl⟩

/-- C5 amended: when the full-time denominator is zero, `generate_document`
raises an unhandled division error and produces no report; it does not
print "not applicable", return 0.0, or propagate NaN (no `Except.ok`
value exists in that case). -/
theorem generate_document_zero_denominator (st : Stats)
    (h : st.total_full_time = 0) :
    generate_document_nums st = Except.error () := by
  simp [generate_document_nums, h]

def c5statsWitness : Stats := ⟨7, 3, 0, 2, 5, 1, 4, "12", ⟨1, 2, 3, 4⟩⟩

theorem generate_document_zero_denominator_witness :
    generate_document_nums c5statsWitness = Except.error () :=
  generate_document_zero_denominator c5statsWitness rfl

theorem dedupByAux_eq_specFO {α β : Type} [DecidableEq β] (f : α → β)
    (seen : List β) (l : List α) :
    dedupByAux f seen l = specFO f (l.filter (fun y => decide (f y ∉ seen))) := by
  induction l generalizing seen with
  | nil => simp [dedupByAux, specFO]
  | cons x xs ih =>
    by_cases hx : f x ∈ seen
    · rw [dedupByAux, if_pos hx, ih seen]
      simp [List.filter_cons, hx]
    · rw [dedupByAux, if_neg hx, ih (seen ++ [f x])]
      have hcons : (x :: xs).filter (fun y => decide (f y ∉ seen)) =
          x :: xs.filter (fun y => decide (f y ∉ seen)) := by
        simp [List.filter_cons, hx]
      rw [hcons, specFO]
      have hpt : (xs.filter (fun y => decide (f y ∉ seen))).filter
          (fun y => decide (f y ≠ f x)) =
          xs.filter (fun y => decide (f y ∉ seen ++ [f x])) := by
        rw [List.filter_filter]
        refine List.filter_congr ?_
        intro y _
        by_cases hs : f y ∈ seen <;> by_cases he : f y = f x <;>
          simp [hs, he]
      rw [hpt]

theorem dedupByAux_nil_eq_specFO {α β : Type} [DecidableEq β] (f : α → β)
    (l : List α) : dedupByAux f [] l = specFO f l := by
  rw [dedupByAux_eq_specFO]
  simp

theorem specFO_filter_key {α β : Type} [DecidableEq β] (f : α → β) (q : β → Bool) :
    ∀ l : List α, (specFO f l).filter (fun y => q (f y)) =
      specFO f (l.filter (fun y => q (f y)))
  | [] => by simp [specFO]
  | x :: xs => by
    have hrec := specFO_filter_key f q (xs.filter (fun y => decide (f y ≠ f x)))
    by_cases hq : q (f x)
    · rw [specFO, List.filter_cons, if_pos (by simpa using hq), List.filter_cons,
        if_pos (by simpa using hq), hrec, specFO]
      congr 1
      have hcomm : (xs.filter (fun y => decide (f y ≠ f x))).filter
          (fun y => q (f y)) =
          (xs.filter (fun y => q (f y))).filter (fun y => decide (f y ≠ f x)) := by
        rw [List.filter_filter, List.filter_filter]
        refine List.filter_congr ?_
        intro y _
        exact Bool.and_comm _ _
      rw [hcomm]
    · rw [specFO, List.filter_cons, if_neg (by simpa using hq), List.filter_cons,
        if_neg (by simpa using hq), hrec]
      congr 1
      rw [List.filter_filter]
      refine List.filter_congr ?_
      intro y _
      by_cases he : f y = f x
      · simp [he, hq]
      · simp [he]
termination_by l => l.length
decreasing_by
  simp only [List.length_cons]
  exact Nat.lt_succ_of_le (List.length_filter_le _ _)

theorem specFO_idem {α β : Type} [DecidableEq β] (f : α → β) :
    ∀ l : List α, specFO f (specFO f l) = specFO f l
  | [] => by simp [specFO]
  | x :: xs => by
    have hrec := specFO_idem f (xs.filter (fun y => decide (f y ≠ f x)))
    rw [specFO, specFO]
    congr 1
    have hkey := specFO_filter_key f (fun b => decide (b ≠ f x))
      (xs.filter (fun y => decide (f y ≠ f x)))
    simp only at hkey
    rw [hkey]
    have hff : (xs.filter (fun y => decide (f y ≠ f x))).filter
        (fun y => decide (f y ≠ f x)) = xs.filter (fun y => decide (f y ≠ f x)) := by
      rw [List.filter_filter]
      refine List.filter_congr ?_
      intro y _
      by_cases he : f y = f x <;> simp [he]
    rw [hff, hrec]
termination_by l => l.length
decreasing_by
  simp only [List.length_cons]
  exact Nat.lt_succ_of_le (List.length_filter_le _ _)

/-- C6: each deduplicator returns exactly the subsequence of rows that are
first occurrences of their key, in original order (the recursive
first-occurrence specification `specFO`); the course key is the last five
characters of field 9 — a shorter field keys on its full content — and the
instructor key is the full field 3. -/
theorem remove_duplicate_first_occurrences (l : List Row)
    (_h9 : ∀ y ∈ l, 9 < y.length) (_h3 : ∀ y ∈ l, USAGE_ROYAL < y.length) :
    remove_duplicate_crn l = specFO crnKey l ∧
    remove_duplicate_royal l = specFO royalKey l ∧
    (∀ y : Row, crnKey y = last5 (fld y 9)) ∧
    (∀ t u : String, u.length = 5 → last5 (t ++ u) = u) ∧
    (∀ s : String, s.length ≤ 5 → last5 s = s) ∧
    (∀ y : Row, royalKey y = fld y USAGE_ROYAL) := by
  refine ⟨dedupByAux_nil_eq_specFO crnKey l, dedupByAux_nil_eq_specFO royalKey l,
    fun y => rfl, ?_, ?_, fun y => rfl⟩
  · intro t u hu
    show String.mk (((t ++ u).toList).drop ((t ++ u).length - 5)) = u
    have htl : (t ++ u).toList = t.toList ++ u.toList := rfl
    have hlen : (t ++ u).length - 5 = t.toList.length := by
      have h1 : (t ++ u).length = t.length + u.length := by
        simp [String.length_append]
      have h2 : t.length = t.toList.length := rfl
      omega
    rw [htl, hlen, List.drop_left]
    rfl
  · intro s hs
    show String.mk ((s.toList).drop (s.length - 5)) = s
    have h0 : s.length - 5 = 0 := Nat.sub_eq_zero_of_le hs
    rw [h0, List.drop_zero]
    rfl

theorem remove_duplicate_first_occurrences_witness :
    remove_duplicate_crn c3rows = specFO crnKey c3rows ∧
    remove_duplicate_royal c3rows = specFO royalKey c3rows ∧
    last5 ("xy" ++ "abcde") = "abcde" ∧ last5 "abc" = "abc" :=
  ⟨(remove_duplicate_first_occurrences c3rows (by decide) (by decide)).1,
   (remove_duplicate_first_occurrences c3rows (by decide) (by decide)).2.1,
   (remove_duplicate_first_occurrences c3rows (by decide) (by decide)).2.2.2.1
     "xy" "abcde" (by decide),
   (remove_duplicate_first_occurrences c3rows (by decide) (by decide)).2.2.2.2.1
     "abc" (by decide)⟩

/-- C7: both deduplicators are idempotent — applied to their own output
they return it unchanged. -/
theorem remove_duplicate_idempotent (l : List Row)
    (_h9 : ∀ y ∈ l, 9 < y.length) (_h3 : ∀ y ∈ l, USAGE_ROYAL < y.length) :
    remove_duplicate_crn (remove_duplicate_crn l) = remove_duplicate_crn l ∧
    remove_duplicate_royal (remove_duplicate_royal l) = remove_duplicate_royal l := by
  constructor
  · show dedupByAux crnKey [] (dedupByAux crnKey [] l) = dedupByAux crnKey [] l
    rw [dedupByAux_nil_eq_specFO crnKey l,
      dedupByAux_nil_eq_specFO crnKey (specFO crnKey l)]
    exact specFO_idem crnKey l
  · show dedupByAux royalKey [] (dedupByAux royalKey [] l) = dedupByAux royalKey [] l
    rw [dedupByAux_nil_eq_specFO royalKey l,
      dedupByAux_nil_eq_specFO royalKey (specFO royalKey l)]
    exact specFO_idem royalKey l

theorem remove_duplicate_idempotent_witness :
    remove_duplicate_crn (remove_duplicate_crn c3rows) = remove_duplicate_crn c3rows ∧
    remove_duplicate_royal (remove_duplicate_royal c3rows) =
      remove_duplicate_royal c3rows :=
  remove_duplicate_idempotent c3rows (by decide) (by decide)

def c8rowA : Row := sampleRow "2019_Spring_20001" "1" "0" "0" "0"

/-- A malformed row: its assignments field is not numeric, so
`int(row[13])` raises. -/
def c8rowBad : Row := sampleRow "2019_Spring_20002" "oops" "0" "0" "0"

def c8rowB : Row := sampleRow "2019_Spring_20003" "0" "0" "0" "3"

/-- C8 counterexample: in the main statistics pipeline
(`get_rows_with_usage`, which has no try/except) one row with a
non-numeric activity field aborts the whole call with an error even though
the surrounding rows are valid — the run produces no report, so the
malformed row is not isolated. -/
theorem main_pipeline_malformed_row_counterexample :
    usageTest c8rowA = some true ∧ usageTest c8rowBad = none ∧
    usageTest c8rowB = some true ∧
    get_rows_with_usage [c8rowA, c8rowBad, c8rowB] = Except.error () :=
  ⟨rfl, rfl, rfl, rfl⟩

/-- C8 amended: a row whose referenced activity field fails to parse aborts
the whole main-pipeline filter (`get_rows_with_usage` returns an error no
matter which rows surround it), whereas the non-usage variant pipeline
(`facultyNotUsingD2LCalculation`, whose row loop is wrapped in
try/except) skips exactly the malformed row and processes all others. -/
theorem malformed_row_isolation (semester : String) (pre post : List Row)
    (bad : Row) (hbad : usageTest bad = none) :
    get_rows_with_usage (pre ++ bad :: post) = Except.error () ∧
    fnuCollect semester (pre ++ bad :: post) = fnuCollect semester (pre ++ post) := by
  induction pre with
  | nil =>
    constructor
    · simp [get_rows_with_usage, hbad]
    · simp [fnuCollect, hbad]
  | cons a rest ih =>
    constructor
    · show get_rows_with_usage (a :: (rest ++ bad :: post)) = Except.error ()
      rw [get_rows_with_usage]
      cases ha : usageTest a with
      | none => rfl
      | some b => rw [ih.1]
    · show fnuCollect semester (a :: (rest ++ bad :: post)) =
        fnuCollect semester (a :: (rest ++ post))
      rw [fnuCollect, fnuCollect]
      cases ha : usageTest a with
      | none =>
        simp only [ha]
        exact ih.2
      | some b =>
        simp only [ha]
        rw [ih.2]

theorem malformed_row_isolation_witness :
    get_rows_with_usage [c8rowA, c8rowBad, c8rowB] = Except.error () ∧
    fnuCollect "2019_Spring" [c8rowA, c8rowBad, c8rowB] =
      fnuCollect "2019_Spring" [c8rowA, c8rowB] :=
  malformed_row_isolation "2019_Spring" [c8rowA] [c8rowB] c8rowBad rfl

/-- C9: deleting the redundant inner membership re-check in the non-usage
report's bucket assignment (the nested `if(row[3] in partTimeRIds)` inside
the `elif` branch whose condition already requires it) changes nothing:
the original loop and the plain three-way rule (full-time, else part-time,
else staff) produce identical buckets on every input and every starting
seen-list. -/
theorem fnuClassify_drop_redundant_check (fullTimeRIds partTimeRIds : List String)
    (fullRaw partRaw : List Row) (rows : List Row) (seen : List String) :
    fnuClassify fullTimeRIds partTimeRIds fullRaw partRaw rows seen =
      fnuClassifySimp fullTimeRIds partTimeRIds fullRaw partRaw rows seen := by
  induction rows generalizing seen with
  | nil => rfl
  | cons row rest ih =>
    rw [fnuClassify, fnuClassifySimp]
    by_cases h1 : fld row USAGE_ROYAL ∈ fullTimeRIds ∧ fld row USAGE_ROYAL ∉ seen
    · simp only [if_pos h1, ih]
    · by_cases h2 : fld row USAGE_ROYAL ∈ partTimeRIds ∧ fld row USAGE_ROYAL ∉ seen
      · simp only [if_neg h1, if_pos h2, if_pos h2.1, ih]
      · by_cases h3 : fld row USAGE_ROYAL ∉ seen
        · simp only [if_neg h1, if_neg h2, if_pos h3, ih]
        · simp only [if_neg h1, if_neg h2, if_neg h3, ih]

theorem parse_files_rewrite_at_usage (usage full_time part_time : String)
    (st : FileStore) (h1 : usage ≠ full_time) (h2 : usage ≠ part_time) :
    parse_files_rewrite usage full_time part_time st usage = reencode (st usage) := by
  show (if usage = part_time then _ else
    if usage = full_time then _ else
    if usage = usage then reencode (st usage) else st usage) = reencode (st usage)
  rw [if_neg h2, if_neg h1, if_pos rfl]

theorem parse_files_rewrite_at_full (usage full_time part_time : String)
    (st : FileStore) (h1 : usage ≠ full_time) (h3 : full_time ≠ part_time) :
    parse_files_rewrite usage full_time part_time st full_time =
      reencode (st full_time) := by
  show (if full_time = part_time then _ else
    if full_time = full_time then
      reencode (if full_time = usage then reencode (st usage) else st full_time)
    else _) = reencode (st full_time)
  rw [if_neg h3, if_pos rfl, if_neg (Ne.symm h1)]

theorem parse_files_rewrite_at_part (usage full_time part_time : String)
    (st : FileStore) (h2 : usage ≠ part_time) (h3 : full_time ≠ part_time) :
    parse_files_rewrite usage full_time part_time st part_time =
      reencode (st part_time) := by
  show (if part_time = part_time then
      reencode (if part_time = full_time then _ else
        if part_time = usage then reencode (st usage) else st part_time)
    else _) = reencode (st part_time)
  rw [if_pos rfl, if_neg (Ne.symm h3), if_neg (Ne.symm h2)]

/-- C10: `parse_files` rewrites each of its three input files in place,
replacing the comma-quoted CSV content at the file's own path with the
`|`-delimited re-encoding before reading it back; no path keeps the
original content (the frame condition shows nothing else changes, so no
backup exists), the re-encoding genuinely alters a comma-delimited file,
and a second run over the same store reads and re-encodes the already
re-encoded data. -/
theorem parse_files_rewrites_in_place (usage full_time part_time : String)
    (st : FileStore) (h1 : usage ≠ full_time) (h2 : usage ≠ part_time)
    (h3 : full_time ≠ part_time) :
    parse_files_rewrite usage full_time part_time st usage = reencode (st usage) ∧
    parse_files_rewrite usage full_time part_time st full_time =
      reencode (st full_time) ∧
    parse_files_rewrite usage full_time part_time st part_time =
      reencode (st part_time) ∧
    (∀ p, p ≠ usage → p ≠ full_time → p ≠ part_time →
      parse_files_rewrite usage full_time part_time st p = st p) ∧
    parse_files_rewrite usage full_time part_time
      (parse_files_rewrite usage full_time part_time st) usage =
      reencode (reencode (st usage)) ∧
    reencode "a,b" = "a|b\r\n" ∧
    reencode "a,b" ≠ "a,b" := by
  refine ⟨parse_files_rewrite_at_usage usage full_time part_time st h1 h2,
    parse_files_rewrite_at_full usage full_time part_time st h1 h3,
    parse_files_rewrite_at_part usage full_time part_time st h2 h3,
    ?_, ?_, rfl, by decide⟩
  · intro p hpu hpf hpp
    show (if p = part_time then _ else if p = full_time then _ else
      if p = usage then _ else st p) = st p
    rw [if_neg hpp, if_neg hpf, if_neg hpu]
  · rw [parse_files_rewrite_at_usage usage full_time part_time _ h1 h2,
      parse_files_rewrite_at_usage usage full_time part_time st h1 h2]

/-- A store holding the same one-line comma CSV at every path. -/
def c10store : FileStore := fun _ => "a,b"

theorem parse_files_rewrites_in_place_witness :
    parse_files_rewrite "u.csv" "f.csv" "p.csv" c10store "u.csv" =
      reencode "a,b" :=
  (parse_files_rewrites_in_place "u.csv" "f.csv" "p.csv" c10store
    (by decide) (by decide) (by decide)).1

end D2lstat
